import Mathlib

/-!
Shallow embedding of the retrieval core of the tds-virtual-ta repository:
the token chunker (`chunk_by_tokens` in scr/create_vector_db_openai.py and
scr/create_vector_db_manual.py), the embedding normalization step
(`embed_text` in scr/create_vector_db_openai.py, `LLM.embed` in
app/models/llm.py), the failure-tolerant embedding wrapper (`safe_embed`),
and the `FAISSIndex` class of app/models/faiss_index.py
(`load_index`, `add_embeddings`, `search`, `generate_excerpts`, `save_index`).

Machine floats are modelled as exact rationals wherever only comparisons,
filtering and ordering matter; Python integers are modelled as `Int` where
they can become negative (the chunker's `start` cursor), and `Nat` otherwise.
-/

namespace TdsVirtualTA

/-! ### Tokenized chunker

`chunk_by_tokens(text, max_tokens, overlap)` in both ingestion scripts runs

```
tokens = ENC.encode(text); chunks = []; start = 0
while start < len(tokens):
    end = min(start + max_tokens, len(tokens))
    chunks.append(ENC.decode(tokens[start:end]))
    start += max_tokens - overlap
return chunks
```

The external tokenizer `ENC` is opaque; we embed the loop at the token level,
taking the encoded token list as input and producing token lists (decoding is
a per-chunk external bijection that does not affect chunk count or token
counts).  `start` is a Python int and `max_tokens - overlap` may be negative,
so `start` is an `Int` and slicing follows Python semantics.  The `while`
loop has no a-priori termination bound, so it is embedded with explicit fuel:
`none` means the loop has not finished within the given fuel.
-/

/-- Python index clamping for slices: a negative index counts from the end
(clamped at 0), a non-negative one is clamped at the length. -/
def pyIdx (n : Nat) (i : Int) : Nat :=
  if i < 0 then ((n : Int) + i).toNat else min i.toNat n

/-- Python slice `l[i:j]`. -/
def pySlice {α : Type} (l : List α) (i j : Int) : List α :=
  (l.take (pyIdx l.length j)).drop (pyIdx l.length i)

/-- One fuelled run of the `while start < len(tokens)` loop of
`chunk_by_tokens`, started at cursor `start`; returns the chunks (as token
lists) appended by the remaining iterations, or `none` if `fuel` iterations
do not finish the loop. -/
def chunkFuel (maxTokens overlap : Nat) (toks : List Nat) :
    Nat → Int → Option (List (List Nat))
  | 0, start => if start < (toks.length : Int) then none else some []
  | fuel + 1, start =>
    if start < (toks.length : Int) then
      let e : Int := min (start + (maxTokens : Int)) (toks.length : Int)
      match chunkFuel maxTokens overlap toks fuel
          (start + ((maxTokens : Int) - (overlap : Int))) with
      | some rest => some (pySlice toks start e :: rest)
      | none => none
    else some []

/-- The loop of `chunk_by_tokens` terminates on `toks` (some finite fuel
completes it). -/
def chunkTerminates (maxTokens overlap : Nat) (toks : List Nat) : Prop :=
  ∃ fuel, (chunkFuel maxTokens overlap toks fuel 0).isSome

/-- Total reformulation of the chunker loop, defined only through the guard
`overlap < max_tokens` (positive stride); agrees with `chunkFuel` whenever
the stride is positive (`chunkFuel_eq_chunkGo`). -/
def chunkGo (maxTokens overlap : Nat) (toks : List Nat) (start : Int) :
    List (List Nat) :=
  if h : start < (toks.length : Int) ∧ overlap < maxTokens then
    pySlice toks start (min (start + (maxTokens : Int)) (toks.length : Int)) ::
      chunkGo maxTokens overlap toks (start + ((maxTokens : Int) - (overlap : Int)))
  else []
termination_by ((toks.length : Int) - start).toNat
decreasing_by
  have h1 : (0 : Int) < (maxTokens : Int) - (overlap : Int) := by
    omega
  have h2 : start < (toks.length : Int) := h.1
  omega

/-- The chunker as called by the scripts: loop from cursor 0.  Faithful to the
source only when the stride is positive; see `chunkFuel` for the exact
fuelled embedding. -/
def chunk_by_tokens (maxTokens overlap : Nat) (toks : List Nat) :
    List (List Nat) :=
  chunkGo maxTokens overlap toks 0

theorem chunkFuel_eq_chunkGo (maxTokens overlap : Nat) (toks : List Nat)
    (h : overlap < maxTokens) :
    ∀ (fuel : Nat) (start : Int), (toks.length : Int) ≤ start + fuel →
      chunkFuel maxTokens overlap toks fuel start =
        some (chunkGo maxTokens overlap toks start) := by
  intro fuel
  induction fuel with
  | zero =>
    intro start hf
    rw [chunkGo]
    simp only [chunkFuel]
    have : ¬ start < (toks.length : Int) := by omega
    simp [this]
  | succ n ih =>
    intro start hf
    rw [chunkGo]
    simp only [chunkFuel]
    by_cases hs : start < (toks.length : Int)
    · have hrec := ih (start + ((maxTokens : Int) - (overlap : Int))) (by omega)
      simp [hs, h, hrec]
    · simp [hs, h]

/-- With a positive stride the loop finishes within `toks.length` iterations. -/
theorem chunk_terminates_of_overlap_lt (maxTokens overlap : Nat)
    (toks : List Nat) (h : overlap < maxTokens) :
    chunkTerminates maxTokens overlap toks := by
  refine ⟨toks.length, ?_⟩
  rw [chunkFuel_eq_chunkGo maxTokens overlap toks h toks.length 0 (by omega)]
  rfl

/-- With a non-positive stride (`overlap ≥ max_tokens`) and a non-empty token
list the cursor never advances past the list, so no amount of fuel finishes
the loop. -/
theorem chunk_diverges_of_maxTokens_le (maxTokens overlap : Nat)
    (toks : List Nat) (h : maxTokens ≤ overlap) (hne : toks ≠ []) :
    ∀ (fuel : Nat) (start : Int), start ≤ 0 →
      chunkFuel maxTokens overlap toks fuel start = none := by
  intro fuel
  induction fuel with
  | zero =>
    intro start hs
    have hlen : 0 < toks.length := List.length_pos.mpr hne
    have : start < (toks.length : Int) := by omega
    simp [chunkFuel, this]
  | succ n ih =>
    intro start hs
    have hlen : 0 < toks.length := List.length_pos.mpr hne
    have hlt : start < (toks.length : Int) := by omega
    have hrec := ih (start + ((maxTokens : Int) - (overlap : Int))) (by omega)
    simp [chunkFuel, hlt, hrec]

/-- C3: the tokenized chunker terminates on every input when
`overlap < max_tokens`; but for `overlap ≥ max_tokens` (non-positive stride)
the code does NOT reject the configuration: its `while` loop never
terminates on non-empty input.  First conjunct: termination for every input
and every configuration with positive stride.  Second conjunct: at the
concrete configuration `max_tokens = 2, overlap = 2` on the two-token input
`[5, 7]`, no amount of fuel completes the loop — the code loops forever
instead of failing fast. -/
theorem chunker_no_fail_fast_on_nonpositive_stride :
    (∀ (toks : List Nat) (maxTokens overlap : Nat), overlap < maxTokens →
      chunkTerminates maxTokens overlap toks) ∧
    ¬ chunkTerminates 2 2 [5, 7] := by
  constructor
  · intro toks maxTokens overlap h
    exact chunk_terminates_of_overlap_lt maxTokens overlap toks h
  · rintro ⟨fuel, hf⟩
    rw [chunk_diverges_of_maxTokens_le 2 2 [5, 7] (Nat.le_refl 2)
      (by decide) fuel 0 (Int.le_refl 0)] at hf
    simp at hf

/-- C9 counterexample: on the concrete 25-token document `List.range 25`,
chunking with `max_tokens = 10, overlap = 2` (stride 8) yields windows at
cursors 0, 8, 16, 24 — FOUR chunks with token counts [10, 10, 9, 1], not the
three chunks [10, 10, 7] stated in the spec. -/
theorem chunk_25_tokens_counterexample :
    (List.range 25).length = 25 ∧
    (chunkFuel 10 2 (List.range 25) 26 0).map (fun cs => cs.map List.length) =
      some [10, 10, 9, 1] ∧
    ([10, 10, 9, 1] : List Nat) ≠ [10, 10, 7] ∧
    (chunkFuel 10 2 (List.range 25) 26 0).map List.length ≠ some 3 := by
  refine ⟨by decide, by decide, by decide, by decide⟩

/-- C9 amended: every document of exactly 25 tokens chunked with
`max_tokens = 10, overlap = 2` produces exactly 4 chunks with token counts
[10, 10, 9, 1] (the loop also appends a final 1-token chunk at cursor 24);
`chunk_by_tokens` is the value of the fuelled loop. -/
theorem chunk_25_tokens_amended (toks : List Nat) (hlen : toks.length = 25) :
    (chunk_by_tokens 10 2 toks).map List.length = [10, 10, 9, 1] ∧
    (chunk_by_tokens 10 2 toks).length = 4 ∧
    chunkFuel 10 2 toks 26 0 = some (chunk_by_tokens 10 2 toks) := by
  have hfuel : chunkFuel 10 2 toks 26 0 = some (chunk_by_tokens 10 2 toks) :=
    chunkFuel_eq_chunkGo 10 2 toks (by decide) 26 0 (by omega)
  have hmap : (chunk_by_tokens 10 2 toks).map List.length = [10, 10, 9, 1] := by
    unfold chunk_by_tokens
    rw [chunkGo, chunkGo, chunkGo, chunkGo, chunkGo]
    simp [hlen, pySlice, pyIdx]
  refine ⟨hmap, ?_, hfuel⟩
  have := congrArg List.length hmap
  simpa using this

/-- C9 witness: the amended count holds at the concrete document
`List.range 25`. -/
theorem chunk_25_tokens_amended_witness :
    (List.range 25).length = 25 ∧
    ((chunk_by_tokens 10 2 (List.range 25)).map List.length = [10, 10, 9, 1] ∧
     (chunk_by_tokens 10 2 (List.range 25)).length = 4 ∧
     chunkFuel 10 2 (List.range 25) 26 0 =
       some (chunk_by_tokens 10 2 (List.range 25))) :=
  ⟨by decide, chunk_25_tokens_amended (List.range 25) (by decide)⟩

/-! ### Embedding normalization

`embed_text` in scr/create_vector_db_openai.py ends with

```
embedding = np.array(resp.data[0].embedding, dtype=np.float32)
normalized_embedding = embedding / np.linalg.norm(embedding)
return normalized_embedding.tolist()
```

and `LLM.embed` in app/models/llm.py is `q_emb / np.linalg.norm(q_emb)`.
Neither has any branch: numpy float division raises no exception, so a
zero-norm vector is divided by its zero norm, every component becoming
`0/0 = NaN`.  Components are exact rationals; since the Euclidean norm
`sqrt (sumSq v)` is irrational in general, the returned value is
represented as the pair of the raw vector and the squared-norm divisor
(component `i` denotes `raw[i] / Real.sqrt sq`; `sq = 0` is the NaN case).
The result type has an explicit constructor for a raised
`DegenerateVectorError` so that its absence from the code is expressible:
no input reaches it. -/

/-- Squared Euclidean norm. -/
def sumSq (v : List ℚ) : ℚ := (v.map (fun x => x * x)).sum

/-- Result of the normalization step.  `value raw sq` denotes the vector
with components `raw[i] / Real.sqrt sq`; `degenerateVectorError` stands for
a raised `DegenerateVectorError` (present in the spec's error taxonomy,
absent from the code). -/
inductive NormalizeResult
  | value (raw : List ℚ) (sq : ℚ)
  | degenerateVectorError
deriving DecidableEq, Repr

/-- The normalization step of `embed_text` / `LLM.embed`:
`embedding / np.linalg.norm(embedding)`, performed unconditionally. -/
def normalize (v : List ℚ) : NormalizeResult :=
  NormalizeResult.value v (sumSq v)

theorem sumSq_eq_zero_iff (v : List ℚ) : sumSq v = 0 ↔ ∀ x ∈ v, x = 0 := by
  induction v with
  | nil => simp [sumSq]
  | cons a l ih =>
    simp only [sumSq, List.map_cons, List.sum_cons] at *
    constructor
    · intro h
      have ha : 0 ≤ a * a := mul_self_nonneg a
      have hl : 0 ≤ (l.map (fun x => x * x)).sum := by
        apply List.sum_nonneg
        intro x hx
        obtain ⟨y, _, rfl⟩ := List.mem_map.mp hx
        exact mul_self_nonneg y
      have h1 : a * a = 0 := by linarith
      have h2 : (l.map (fun x => x * x)).sum = 0 := by linarith
      intro x hx
      rcases List.mem_cons.mp hx with rfl | hx
      · exact mul_self_eq_zero.mp h1
      · exact (ih.mp h2) x hx
    · intro h
      have ha : a = 0 := h a (by simp)
      have hl : (l.map (fun x => x * x)).sum = 0 :=
        ih.mpr fun x hx => h x (List.mem_cons_of_mem a hx)
      simp [ha, hl]

/-- C4 counterexample: on the concrete zero vector `[0, 0, 0]` the
normalization step does NOT fail with `DegenerateVectorError`; it divides
the vector by its zero norm, returning the value whose squared-norm divisor
is 0 — the all-NaN vector `0 / sqrt 0`. -/
theorem normalize_zero_vector_counterexample :
    normalize [0, 0, 0] ≠ NormalizeResult.degenerateVectorError ∧
    normalize [0, 0, 0] = NormalizeResult.value [0, 0, 0] 0 ∧
    sumSq [0, 0, 0] = 0 := by
  refine ⟨by simp [normalize], by simp [normalize, sumSq], by simp [sumSq]⟩

/-- C4 amended: the normalization step never raises: for every input vector
it unconditionally returns the input divided by its Euclidean norm (no
`DegenerateVectorError` exists in the code), and on every zero-norm input —
exactly the all-zero vectors — the division by zero is still performed,
yielding the NaN vector (divisor 0) rather than an error. -/
theorem normalize_never_rejects (v : List ℚ) :
    normalize v ≠ NormalizeResult.degenerateVectorError ∧
    normalize v = NormalizeResult.value v (sumSq v) ∧
    ((∀ x ∈ v, x = 0) → normalize v = NormalizeResult.value v 0) := by
  refine ⟨by simp [normalize], rfl, ?_⟩
  intro h
  rw [normalize, (sumSq_eq_zero_iff v).mpr h]

/-! ### safe_embed

`safe_embed` in scr/create_vector_db_openai.py:

```
try:
    return embed_text(text)
except openai.BadRequestError as e:
    if "maximum context length" in str(e):
        mid = len(text) // 2
        left = safe_embed(text[:mid])
        right = safe_embed(text[mid:])
        return ((np.array(left) + np.array(right)) / 2).tolist()
    raise
```

The external embedding call is a parameter; its outcome is either a vector,
a `BadRequestError` mentioning the maximum context length, or any other
exception.  Text is a list of character codes, so that `text[:mid]` and
`text[mid:]` are `take`/`drop` at `len(text) // 2`.  The recursion is
embedded with fuel (on `safe_embed("x")` the left half is `""` and the
recursion need not shrink); `fuel = 0` stands for Python's RecursionError,
an "other" failure. -/

/-- Outcome of one embedding call: a returned vector, a BadRequestError
whose message mentions "maximum context length", or any other exception. -/
inductive EmbedOutcome
  | ok (v : List ℚ)
  | contextLengthError
  | otherError
deriving DecidableEq, Repr

/-- `((np.array(left) + np.array(right)) / 2).tolist()` — the elementwise
average of two equal-length vectors. -/
def avg2 (l r : List ℚ) : List ℚ :=
  List.zipWith (fun a b => (a + b) / 2) l r

/-- `safe_embed(text)` with the external call `embedFn` explicit and the
recursion fuelled. -/
def safe_embed (embedFn : List Nat → EmbedOutcome) :
    Nat → List Nat → EmbedOutcome
  | 0, _ => EmbedOutcome.otherError
  | fuel + 1, text =>
    match embedFn text with
    | EmbedOutcome.ok v => EmbedOutcome.ok v
    | EmbedOutcome.otherError => EmbedOutcome.otherError
    | EmbedOutcome.contextLengthError =>
      let mid := text.length / 2
      match safe_embed embedFn fuel (text.take mid) with
      | EmbedOutcome.ok l =>
        match safe_embed embedFn fuel (text.drop mid) with
        | EmbedOutcome.ok r => EmbedOutcome.ok (avg2 l r)
        | e => e
      | e => e

/-- The concrete external embedder of the C8 counterexample: any text of two
or more characters overflows the context window; the single characters `[0]`
and `[1]` embed to the orthogonal unit vectors `[1, 0]` and `[0, 1]`. -/
def splitEmbedFn (text : List Nat) : EmbedOutcome :=
  if 2 ≤ text.length then EmbedOutcome.contextLengthError
  else if text = [0] then EmbedOutcome.ok [1, 0]
  else EmbedOutcome.ok [0, 1]

/-- C8 counterexample: on the two-character text `[0, 1]` the external call
fails on the whole text and returns the orthogonal unit vectors `[1, 0]` and
`[0, 1]` on the two halves; `safe_embed` returns their plain average
`[1/2, 1/2]`, whose squared norm is `1/2` — the result is NOT re-normalized
and does not have unit Euclidean norm. -/
theorem safe_embed_average_not_unit_counterexample :
    splitEmbedFn [0, 1] = EmbedOutcome.contextLengthError ∧
    splitEmbedFn [0] = EmbedOutcome.ok [1, 0] ∧
    splitEmbedFn [1] = EmbedOutcome.ok [0, 1] ∧
    sumSq [1, 0] = 1 ∧ sumSq [0, 1] = 1 ∧
    safe_embed splitEmbedFn 2 [0, 1] = EmbedOutcome.ok [1/2, 1/2] ∧
    sumSq [(1 : ℚ)/2, 1/2] ≠ 1 := by
  refine ⟨by decide, by decide, by decide, by simp [sumSq], by simp [sumSq],
    by norm_num [safe_embed, splitEmbedFn, avg2], by norm_num [sumSq]⟩

/-- C8 amended: whenever the external call fails on `text` because of input
length and succeeds on each half, `safe_embed` splits `text` at its
character midpoint and returns the plain elementwise average of the two
halves' vectors, with no re-normalization (so the result is unit-norm only
when the averaged squared norm happens to be 1). -/
theorem safe_embed_splits_and_averages (embedFn : List Nat → EmbedOutcome)
    (text : List Nat) (l r : List ℚ) (fuel : Nat)
    (hfull : embedFn text = EmbedOutcome.contextLengthError)
    (hleft : embedFn (text.take (text.length / 2)) = EmbedOutcome.ok l)
    (hright : embedFn (text.drop (text.length / 2)) = EmbedOutcome.ok r) :
    safe_embed embedFn (fuel + 2) text = EmbedOutcome.ok (avg2 l r) := by
  show safe_embed embedFn (fuel + 1 + 1) text = EmbedOutcome.ok (avg2 l r)
  unfold safe_embed
  rw [hfull]
  simp only [safe_embed, hleft, hright]

/-- C8 witness: the amended behaviour at the concrete split embedder and the
two-character text `[0, 1]`. -/
theorem safe_embed_splits_and_averages_witness :
    splitEmbedFn [0, 1] = EmbedOutcome.contextLengthError ∧
    splitEmbedFn (List.take ([0, 1].length / 2) [0, 1]) =
      EmbedOutcome.ok [1, 0] ∧
    splitEmbedFn (List.drop ([0, 1].length / 2) [0, 1]) =
      EmbedOutcome.ok [0, 1] ∧
    safe_embed splitEmbedFn 2 [0, 1] = EmbedOutcome.ok (avg2 [1, 0] [0, 1]) :=
  ⟨by decide, by decide, by decide,
    safe_embed_splits_and_averages splitEmbedFn [0, 1] [1, 0] [0, 1] 0
      (by decide) (by decide) (by decide)⟩

/-! ### The FAISSIndex class (app/models/faiss_index.py)

The class owns a `faiss.IndexFlatIP(embed_dim)` and a parallel metadata
list.  The live faiss index is modelled by its dimension (`index_d`) and its
stored vectors; the metadata records carry the three fields the code reads
(`source`, `chunk_id`, `text`).  The filesystem is a partial map from paths
to file contents — a written faiss index file or a dumped JSON metadata
array.  Operations that can raise a Python exception return `Option`
(`none` = the call raised and the state is unchanged). -/

/-- A metadata record: `{source, chunk_id, text}` as produced by the
ingestion scripts and consumed by `generate_excerpts`. -/
structure MetaRec where
  source : String
  chunk_id : Nat
  text : String
deriving DecidableEq, Repr

/-- Content of a persisted file: what `faiss.write_index` writes (the index
dimension and its vectors) or what `json.dump` writes (the metadata array). -/
inductive FileContent
  | vecFile (d : Nat) (vs : List (List ℚ))
  | metaFile (ms : List MetaRec)
deriving DecidableEq, Repr

/-- The filesystem: a map from paths to file contents. -/
def FS : Type := String → Option FileContent

/-- The in-memory state of a `FAISSIndex` object. -/
structure FAISSIndexState where
  embed_dim : Nat
  index_path : String
  meta_path : String
  similarity_threshold : ℚ
  /-- Dimension of the live `faiss.IndexFlatIP` (equal to `embed_dim` at
  construction; replaced wholesale by `faiss.read_index`). -/
  index_d : Nat
  /-- Vectors stored in the live faiss index, in insertion order. -/
  vectors : List (List ℚ)
  metadata : List MetaRec
deriving DecidableEq, Repr

/-- `FAISSIndex.load_index`: if both files exist, replace the live index and
the metadata with their contents (`faiss.read_index` / `json.load` raise on
content of the wrong kind — `none`); otherwise do nothing. -/
def load_index (s : FAISSIndexState) (fs : FS) : Option FAISSIndexState :=
  match fs s.index_path, fs s.meta_path with
  | some (FileContent.vecFile d vs), some (FileContent.metaFile ms) =>
    some { s with index_d := d, vectors := vs, metadata := ms }
  | some _, some _ => none
  | _, _ => some s

/-- `FAISSIndex.__init__`: store the parameters, create an empty
`faiss.IndexFlatIP(embed_dim)` and an empty metadata list, then call
`load_index` (the Python default for `similarity_threshold` is 0.5; the API
layer passes 0.35). -/
def FAISSIndex_init (embed_dim : Nat) (index_path meta_path : String)
    (similarity_threshold : ℚ) (fs : FS) : Option FAISSIndexState :=
  load_index
    { embed_dim := embed_dim
      index_path := index_path
      meta_path := meta_path
      similarity_threshold := similarity_threshold
      index_d := embed_dim
      vectors := []
      metadata := [] } fs

/-- `FAISSIndex.add_embeddings`: `self.index.add(embeddings)` followed by
`self.metadata.extend(metadata)`.  `faiss.IndexFlatIP.add` appends every row
of the `(n, d)` array and raises if the row dimension is not the index's
(`none`, nothing applied); no relation between `len(embeddings)` and
`len(metadata)` is ever checked. -/
def add_embeddings (s : FAISSIndexState) (embeddings : List (List ℚ))
    (metadata : List MetaRec) : Option FAISSIndexState :=
  if embeddings.all (fun v => v.length = s.index_d) then
    some { s with vectors := s.vectors ++ embeddings
                  metadata := s.metadata ++ metadata }
  else none

/-- `FAISSIndex.save_index`: `faiss.write_index` to `index_path`, then the
metadata JSON to `meta_path` (written second, so it wins if the two paths
coincide). -/
def save_index (s : FAISSIndexState) (fs : FS) : FS :=
  fun p =>
    if p = s.meta_path then some (FileContent.metaFile s.metadata)
    else if p = s.index_path then some (FileContent.vecFile s.index_d s.vectors)
    else fs p

/-- Inner product of two vectors (`faiss.METRIC_INNER_PRODUCT` scoring). -/
def dot (u v : List ℚ) : ℚ := (List.zipWith (· * ·) u v).sum

/-- Order in which `faiss.IndexFlatIP.search` ranks hits: strictly greater
score first, equal scores by ascending stored position. -/
def hitRel (a b : Nat × ℚ) : Prop := b.2 < a.2 ∨ (a.2 = b.2 ∧ a.1 ≤ b.1)

instance : DecidableRel hitRel := fun a b => by unfold hitRel; infer_instance

instance : IsTotal (Nat × ℚ) hitRel := by
  constructor
  intro a b
  rcases lt_trichotomy a.2 b.2 with h | h | h
  · exact Or.inr (Or.inl h)
  · rcases Nat.le_total a.1 b.1 with h1 | h1
    · exact Or.inl (Or.inr ⟨h, h1⟩)
    · exact Or.inr (Or.inr ⟨h.symm, h1⟩)
  · exact Or.inl (Or.inl h)

instance : IsTrans (Nat × ℚ) hitRel := by
  constructor
  intro a b c hab hbc
  rcases hab with hab | ⟨hab, hab'⟩ <;> rcases hbc with hbc | ⟨hbc, hbc'⟩
  · exact Or.inl (lt_trans hbc hab)
  · exact Or.inl (hbc ▸ hab)
  · exact Or.inl (hab ▸ hbc)
  · exact Or.inr ⟨hab.trans hbc, hab'.trans hbc'⟩

/-- The scored hits the flat index computes: stored position `i` paired with
the inner product of the query against vector `i`. -/
def scoredHits (vecs : List (List ℚ)) (q : List ℚ) : List (Nat × ℚ) :=
  (vecs.map (fun v => dot q v)).enum

/-- Models `faiss.IndexFlatIP.search(query, k)` on an exact flat index: the
inner product of the query against every stored vector, hits ordered by
descending score with ties by ascending position, the first `k` returned.
When fewer than `k` vectors are stored, faiss pads the result rows with the
sentinel `(id = -1, score = -inf)`; the caller's `score >= threshold` filter
discards every sentinel for any finite threshold, so the model omits them. -/
def faissTopK (vecs : List (List ℚ)) (q : List ℚ) (k : Nat) : List (Nat × ℚ) :=
  (List.insertionSort hitRel (scoredHits vecs q)).take k

/-- `FAISSIndex.search`: the faiss top-`k`, kept only where
`score >= self.similarity_threshold`, in faiss rank order. -/
def FAISSIndex_search (s : FAISSIndexState) (q : List ℚ) (k : Nat) :
    List (Nat × ℚ) :=
  (faissTopK s.vectors q k).filter (fun h => s.similarity_threshold ≤ h.2)

/-- The deduplication key of `generate_excerpts`: `(m["source"], m["chunk_id"])`. -/
def keyOf (m : MetaRec) : String × Nat := (m.source, m.chunk_id)

/-- The loop of `FAISSIndex.generate_excerpts` with its `seen_texts` set made
explicit (Python uses a hash set; only membership is observed). -/
def genExcerptsLoop (metadata : List MetaRec) (seen : List (String × Nat)) :
    List (Nat × ℚ) → List (String × MetaRec)
  | [] => []
  | (idx, _) :: rest =>
    if keyOf (metadata.getD idx ⟨"", 0, ""⟩) ∈ seen then
      genExcerptsLoop metadata seen rest
    else ((metadata.getD idx ⟨"", 0, ""⟩).text, metadata.getD idx ⟨"", 0, ""⟩) ::
      genExcerptsLoop metadata (keyOf (metadata.getD idx ⟨"", 0, ""⟩) :: seen) rest

/-- `FAISSIndex.generate_excerpts(relevant)`: walk the hits in rank order,
resolve each position in `self.metadata` (`self.metadata[idx]` raises on an
out-of-range position — theorems assume in-range hits, and the `getD`
default is never read there), keep the first hit of each `(source,
chunk_id)` key as the excerpt `(m["text"], m)`. -/
def generate_excerpts (s : FAISSIndexState) (relevant : List (Nat × ℚ)) :
    List (String × MetaRec) :=
  genExcerptsLoop s.metadata [] relevant

/-- Reference first-occurrence deduplication: keep each element whose key has
not appeared before it. -/
def dedupFirst {α κ : Type} [DecidableEq κ] (key : α → κ) : List α → List α
  | [] => []
  | a :: rest => a :: dedupFirst key (rest.filter (fun b => key b ≠ key a))
termination_by l => l.length
decreasing_by
  simp only [List.length_cons]
  exact Nat.lt_succ_of_le (List.length_filter_le _ _)

/-! ### Alignment, frame and persistence theorems -/

/-- The empty filesystem (fresh deployment: neither persisted file exists). -/
def emptyFS : FS := fun _ => none

/-- A sample metadata record. -/
def sampleMeta : MetaRec := { source := "doc1", chunk_id := 0, text := "alpha" }

/-- A second sample metadata record. -/
def sampleMeta2 : MetaRec := { source := "doc2", chunk_id := 3, text := "beta" }

/-- The state a fresh `FAISSIndex(2, "idx", "meta", 7/20)` holds when neither
file exists. -/
def freshState : FAISSIndexState :=
  { embed_dim := 2
    index_path := "idx"
    meta_path := "meta"
    similarity_threshold := 7/20
    index_d := 2
    vectors := []
    metadata := [] }

/-- `freshState` after `add_embeddings` with two vectors but one metadata
record. -/
def misalignedState : FAISSIndexState :=
  { freshState with vectors := [[1, 0], [0, 1]], metadata := [sampleMeta] }

/-- A sequence of `add_embeddings` calls, stopped at the first raised
exception. -/
def runAdds (s : FAISSIndexState) :
    List (List (List ℚ) × List MetaRec) → Option FAISSIndexState
  | [] => some s
  | (e, m) :: rest =>
    match add_embeddings s e m with
    | some s' => runAdds s' rest
    | none => none

theorem add_embeddings_lengths (s : FAISSIndexState) (e : List (List ℚ))
    (m : List MetaRec) (s' : FAISSIndexState)
    (h : add_embeddings s e m = some s') :
    s'.vectors.length = s.vectors.length + e.length ∧
    s'.metadata.length = s.metadata.length + m.length := by
  unfold add_embeddings at h
  split at h
  · cases h
    simp
  · cases h

theorem runAdds_balanced_alignment :
    ∀ (calls : List (List (List ℚ) × List MetaRec)) (s s' : FAISSIndexState),
      (∀ c ∈ calls, c.1.length = c.2.length) →
      s.vectors.length = s.metadata.length →
      runAdds s calls = some s' →
      s'.vectors.length = s'.metadata.length := by
  intro calls
  induction calls with
  | nil =>
    intro s s' _ hinv hrun
    cases hrun
    exact hinv
  | cons c rest ih =>
    intro s s' hbal hinv hrun
    obtain ⟨e, m⟩ := c
    unfold runAdds at hrun
    cases hadd : add_embeddings s e m with
    | none => rw [hadd] at hrun; cases hrun
    | some s1 =>
      rw [hadd] at hrun
      obtain ⟨hv, hm⟩ := add_embeddings_lengths s e m s1 hadd
      have hlen : e.length = m.length := hbal (e, m) (List.mem_cons_self _ _)
      exact ih s1 s' (fun c hc => hbal c (List.mem_cons_of_mem _ hc))
        (by omega) hrun

/-- C1 counterexample: from the fresh empty index, `add_embeddings` with TWO
vectors (of the right dimension) and ONE metadata record does not fail with
`AlignmentError` — no length check exists — and changes both stores,
leaving 2 stored vectors against 1 metadata record. -/
theorem add_embeddings_no_alignment_check_counterexample :
    FAISSIndex_init 2 "idx" "meta" (7/20) emptyFS = some freshState ∧
    add_embeddings freshState [[1, 0], [0, 1]] [sampleMeta] =
      some misalignedState ∧
    misalignedState.vectors.length = 2 ∧
    misalignedState.metadata.length = 1 ∧
    misalignedState ≠ freshState := by
  refine ⟨rfl, rfl, rfl, rfl, ?_⟩
  intro h
  have := congrArg (fun st => st.metadata.length) h
  simp [misalignedState, freshState, sampleMeta] at this

/-- C1 amended: `add_embeddings` never checks the two lengths against each
other, so only calls that pass equally many vectors and metadata records
preserve alignment: after any sequence of successful such balanced calls
starting from a freshly constructed empty index, the number of stored
vectors equals the number of metadata records.  (A mismatched call succeeds
and breaks the invariant — see the counterexample.) -/
theorem balanced_adds_preserve_alignment (d : Nat) (ip mp : String) (t : ℚ)
    (s0 s' : FAISSIndexState) (calls : List (List (List ℚ) × List MetaRec))
    (h0 : FAISSIndex_init d ip mp t emptyFS = some s0)
    (hbal : ∀ c ∈ calls, c.1.length = c.2.length)
    (hrun : runAdds s0 calls = some s') :
    s'.vectors.length = s'.metadata.length := by
  have hs0 : s0.vectors.length = s0.metadata.length := by
    unfold FAISSIndex_init load_index emptyFS at h0
    cases h0
    rfl
  exact runAdds_balanced_alignment calls s0 s' hbal hs0 hrun

/-- `freshState` after the two balanced calls of the C1 witness. -/
def balancedFinalState : FAISSIndexState :=
  { freshState with
      vectors := [[1, 0], [0, 1], [1/2, 1/2]]
      metadata := [sampleMeta, sampleMeta2, sampleMeta] }

/-- C1 witness: two balanced calls from the fresh index leave 3 vectors and
3 records. -/
theorem balanced_adds_preserve_alignment_witness :
    FAISSIndex_init 2 "idx" "meta" (7/20) emptyFS = some freshState ∧
    (∀ c ∈ [([[1, 0], [0, 1]], [sampleMeta, sampleMeta2]),
            ([[(1 : ℚ)/2, 1/2]], [sampleMeta])],
        (c.1 : List (List ℚ)).length = c.2.length) ∧
    runAdds freshState
        [([[1, 0], [0, 1]], [sampleMeta, sampleMeta2]),
         ([[(1 : ℚ)/2, 1/2]], [sampleMeta])] = some balancedFinalState ∧
    balancedFinalState.vectors.length = balancedFinalState.metadata.length := by
  have hbal : ∀ c ∈ [([[1, 0], [0, 1]], [sampleMeta, sampleMeta2]),
      ([[(1 : ℚ)/2, 1/2]], [sampleMeta])],
      (c.1 : List (List ℚ)).length = c.2.length := by
    intro c hc
    rcases List.mem_cons.mp hc with rfl | hc
    · rfl
    · rcases List.mem_cons.mp hc with rfl | hc
      · rfl
      · cases hc
  exact ⟨rfl, hbal,  rfl,
    balanced_adds_preserve_alignment 2 "idx" "meta" (7/20)
      freshState balancedFinalState _ rfl hbal rfl⟩

/-- C10: every successful `add_embeddings` call appends exactly the given
metadata records, in order, after the previous ones, appends exactly the
given vectors after the previous ones, and leaves `embed_dim`,
`similarity_threshold`, `index_path`, `meta_path` and the index dimension
unchanged. -/
theorem add_embeddings_frame (s : FAISSIndexState) (e : List (List ℚ))
    (m : List MetaRec) (s' : FAISSIndexState)
    (h : add_embeddings s e m = some s') :
    s'.metadata = s.metadata ++ m ∧
    s'.vectors = s.vectors ++ e ∧
    s'.embed_dim = s.embed_dim ∧
    s'.similarity_threshold = s.similarity_threshold ∧
    s'.index_path = s.index_path ∧
    s'.meta_path = s.meta_path ∧
    s'.index_d = s.index_d := by
  unfold add_embeddings at h
  split at h
  · cases h
    exact ⟨rfl, rfl, rfl, rfl, rfl, rfl, rfl⟩
  · cases h

/-- C10 witness: the frame property at a concrete successful call. -/
theorem add_embeddings_frame_witness :
    add_embeddings freshState [[1, 0], [0, 1]] [sampleMeta] =
      some misalignedState ∧
    (misalignedState.metadata = freshState.metadata ++ [sampleMeta] ∧
     misalignedState.vectors = freshState.vectors ++ [[1, 0], [0, 1]] ∧
     misalignedState.embed_dim = freshState.embed_dim ∧
     misalignedState.similarity_threshold = freshState.similarity_threshold ∧
     misalignedState.index_path = freshState.index_path ∧
     misalignedState.meta_path = freshState.meta_path ∧
     misalignedState.index_d = freshState.index_d) :=
  ⟨rfl, add_embeddings_frame freshState [[1, 0], [0, 1]] [sampleMeta]
    misalignedState rfl⟩

/-- C5: `save_index` followed by construction of a fresh instance with the
same parameters (whose `__init__` runs `load_index` on the saved files)
restores the exact stored vectors and the exact metadata records in their
original order — the fresh state equals the saved one.  The two paths must
differ, as they do in every caller: saving both files to one path leaves
only the JSON there and reloading raises. -/
theorem save_load_roundtrip (s : FAISSIndexState) (fs : FS)
    (hne : s.index_path ≠ s.meta_path) :
    FAISSIndex_init s.embed_dim s.index_path s.meta_path
      s.similarity_threshold (save_index s fs) = some s := by
  have h1 : save_index s fs s.index_path =
      some (FileContent.vecFile s.index_d s.vectors) := by
    simp [save_index, hne]
  have h2 : save_index s fs s.meta_path =
      some (FileContent.metaFile s.metadata) := by
    simp [save_index]
  simp [FAISSIndex_init, load_index, h1, h2]

/-- C5 witness: the round-trip at a concrete populated index over the empty
filesystem. -/
theorem save_load_roundtrip_witness :
    misalignedState.index_path ≠ misalignedState.meta_path ∧
    FAISSIndex_init misalignedState.embed_dim misalignedState.index_path
      misalignedState.meta_path misalignedState.similarity_threshold
      (save_index misalignedState emptyFS) = some misalignedState :=
  ⟨by decide, save_load_roundtrip misalignedState emptyFS (by decide)⟩

/-- A filesystem whose persisted pair disagrees on count: two vectors in the
index file, one record in the metadata file. -/
def mismatchedFS : FS := fun p =>
  if p = "idx" then some (FileContent.vecFile 2 [[1, 0], [0, 1]])
  else if p = "meta" then some (FileContent.metaFile [sampleMeta])
  else none

/-- C6 counterexample: constructing a `FAISSIndex` over the mismatched file
pair (2 vectors, 1 metadata record) raises no `CorruptIndexError` and does
not fall back to empty: `load_index` installs both contents as-is, yielding
a live state with 2 stored vectors against 1 metadata record. -/
theorem load_mismatched_counts_counterexample :
    FAISSIndex_init 2 "idx" "meta" (7/20) mismatchedFS =
      some misalignedState ∧
    misalignedState.vectors.length = 2 ∧
    misalignedState.metadata.length = 1 ∧
    misalignedState.vectors ≠ [] ∧
    misalignedState.metadata ≠ [] := by
  refine ⟨rfl, rfl, rfl, by simp [misalignedState, freshState], by simp [misalignedState, freshState]⟩

/-- C6 amended: `load_index` performs no count validation at all: whenever
both paths hold readable files of the expected kinds, the fresh instance
adopts both contents exactly as persisted — also when the vector count and
the metadata count disagree — and no error is raised; there is no
`CorruptIndexError` and no fall-back to empty. -/
theorem load_installs_files_unchecked (d dd : Nat) (ip mp : String) (t : ℚ)
    (fs : FS) (vs : List (List ℚ)) (ms : List MetaRec)
    (hv : fs ip = some (FileContent.vecFile dd vs))
    (hm : fs mp = some (FileContent.metaFile ms)) :
    FAISSIndex_init d ip mp t fs =
      some { embed_dim := d
             index_path := ip
             meta_path := mp
             similarity_threshold := t
             index_d := dd
             vectors := vs
             metadata := ms } := by
  simp [FAISSIndex_init, load_index, hv, hm]

/-- C6 witness: the unchecked install at the concrete mismatched pair. -/
theorem load_installs_files_unchecked_witness :
    mismatchedFS "idx" = some (FileContent.vecFile 2 [[1, 0], [0, 1]]) ∧
    mismatchedFS "meta" = some (FileContent.metaFile [sampleMeta]) ∧
    FAISSIndex_init 2 "idx" "meta" (7/20) mismatchedFS =
      some { embed_dim := 2
             index_path := "idx"
             meta_path := "meta"
             similarity_threshold := 7/20
             index_d := 2
             vectors := [[1, 0], [0, 1]]
             metadata := [sampleMeta] } :=
  ⟨rfl, rfl,
    load_installs_files_unchecked 2 2 "idx" "meta" (7/20) mismatchedFS
      [[1, 0], [0, 1]] [sampleMeta] rfl rfl⟩

/-! ### Excerpt assembly (C7) -/

theorem mem_dedupFirst {α κ : Type} [DecidableEq κ] (key : α → κ) :
    ∀ (l : List α) (x : α), x ∈ dedupFirst key l → x ∈ l := by
  intro l
  induction l using dedupFirst.induct key with
  | case1 => intro x hx; rw [dedupFirst] at hx; cases hx
  | case2 a rest ih =>
    intro x hx
    rw [dedupFirst] at hx
    rcases List.mem_cons.mp hx with rfl | hx
    · exact List.mem_cons_self _ _
    · exact List.mem_cons_of_mem a (List.mem_of_mem_filter (ih x hx))

theorem dedupFirst_keys_nodup {α κ : Type} [DecidableEq κ] (key : α → κ) :
    ∀ l : List α, ((dedupFirst key l).map key).Nodup := by
  intro l
  induction l using dedupFirst.induct key with
  | case1 => rw [dedupFirst]; simp
  | case2 a rest ih =>
    rw [dedupFirst]
    simp only [List.map_cons, List.nodup_cons]
    refine ⟨?_, ih⟩
    intro hmem
    obtain ⟨x, hx, hkey⟩ := List.mem_map.mp hmem
    have hxf := mem_dedupFirst key _ x hx
    have := List.of_mem_filter hxf
    simp at this
    exact this hkey

theorem genExcerptsLoop_eq (md : List MetaRec) :
    ∀ (hits : List (Nat × ℚ)) (seen : List (String × Nat)),
      genExcerptsLoop md seen hits =
        (dedupFirst keyOf
            (((hits.map (fun p => md.getD p.1 ⟨"", 0, ""⟩))).filter
              (fun m => keyOf m ∉ seen))).map (fun m => (m.text, m)) := by
  intro hits
  induction hits with
  | nil =>
    intro seen
    simp only [List.map_nil, List.filter_nil]
    rw [genExcerptsLoop, dedupFirst]
    rfl
  | cons p rest ih =>
    intro seen
    obtain ⟨idx, sc⟩ := p
    by_cases hmem : keyOf (md.getD idx ⟨"", 0, ""⟩) ∈ seen
    · have hfilter : decide (keyOf (md.getD idx ⟨"", 0, ""⟩) ∉ seen) = false := by
        simpa using hmem
      simp only [genExcerptsLoop, if_pos hmem, List.map_cons, List.filter_cons,
        hfilter, Bool.false_eq_true, if_false]
      exact ih seen
    · have hfilter : decide (keyOf (md.getD idx ⟨"", 0, ""⟩) ∉ seen) = true := by
        simpa using hmem
      simp only [genExcerptsLoop, if_neg hmem, List.map_cons, List.filter_cons,
        hfilter, if_true]
      rw [dedupFirst, ih (keyOf (md.getD idx ⟨"", 0, ""⟩) :: seen)]
      simp only [List.map_cons]
      congr 2
      rw [List.filter_filter]
      congr 1
      apply List.filter_congr
      intro b _
      by_cases h1 : keyOf b = keyOf (md.getD idx ⟨"", 0, ""⟩) <;>
        by_cases h2 : keyOf b ∈ seen <;> simp [h1, h2]

/-- C7: `generate_excerpts` walks the hits in rank order, resolves each to
its metadata record, and keeps exactly the first occurrence of each
`(source, chunk_id)` key as the excerpt `(text, record)`, dropping every
later duplicate and preserving the order of first occurrences — it equals
first-occurrence deduplication by key of the resolved records; in
particular the emitted keys are pairwise distinct, so two hits resolving to
the same key yield exactly one excerpt. -/
theorem generate_excerpts_dedups_by_key (s : FAISSIndexState)
    (relevant : List (Nat × ℚ))
    (hin : ∀ p ∈ relevant, p.1 < s.metadata.length) :
    generate_excerpts s relevant =
      (dedupFirst keyOf
          (relevant.map (fun p => s.metadata.getD p.1 ⟨"", 0, ""⟩))).map
        (fun m => (m.text, m)) ∧
    ((generate_excerpts s relevant).map (fun e => keyOf e.2)).Nodup := by
  have heq : generate_excerpts s relevant =
      (dedupFirst keyOf
          (relevant.map (fun p => s.metadata.getD p.1 ⟨"", 0, ""⟩))).map
        (fun m => (m.text, m)) := by
    rw [generate_excerpts, genExcerptsLoop_eq]
    congr 1
    congr 1
    apply List.filter_eq_self.mpr
    intro m _
    simp
  refine ⟨heq, ?_⟩
  rw [heq, List.map_map]
  have : ((fun e : String × MetaRec => keyOf e.2) ∘ fun m => (m.text, m)) =
      keyOf := rfl
  rw [this]
  exact dedupFirst_keys_nodup keyOf _

/-- The index state of the C7 witness: two records, hit twice at position 0. -/
def dedupState : FAISSIndexState :=
  { freshState with metadata := [sampleMeta, sampleMeta2] }

/-- C7 witness: three in-range hits, two of them resolving to the same
record, assemble into first-occurrence deduplicated excerpts. -/
theorem generate_excerpts_dedups_by_key_witness :
    (∀ p ∈ [((0 : Nat), (9 : ℚ)/10), (1, 1/2), (0, 2/5)],
      p.1 < dedupState.metadata.length) ∧
    (generate_excerpts dedupState [((0 : Nat), (9 : ℚ)/10), (1, 1/2), (0, 2/5)] =
      (dedupFirst keyOf
          ([((0 : Nat), (9 : ℚ)/10), (1, 1/2), (0, 2/5)].map
            (fun p => dedupState.metadata.getD p.1 ⟨"", 0, ""⟩))).map
        (fun m => (m.text, m)) ∧
    ((generate_excerpts dedupState
        [((0 : Nat), (9 : ℚ)/10), (1, 1/2), (0, 2/5)]).map
      (fun e => keyOf e.2)).Nodup) := by
  have hin : ∀ p ∈ [((0 : Nat), (9 : ℚ)/10), (1, 1/2), (0, 2/5)],
      p.1 < dedupState.metadata.length := by
    intro p hp
    rcases List.mem_cons.mp hp with rfl | hp
    · decide
    · rcases List.mem_cons.mp hp with rfl | hp
      · decide
      · rcases List.mem_cons.mp hp with rfl | hp
        · decide
        · cases hp
  exact ⟨hin, generate_excerpts_dedups_by_key dedupState _ hin⟩

/-! ### Search theorems (C2) -/

theorem sorted_scoredHits (vecs : List (List ℚ)) (q : List ℚ) :
    (List.insertionSort hitRel (scoredHits vecs q)).Pairwise hitRel :=
  List.sorted_insertionSort hitRel _

theorem scoredHits_pos_nodup (vecs : List (List ℚ)) (q : List ℚ) :
    ((List.insertionSort hitRel (scoredHits vecs q)).map Prod.fst).Nodup := by
  have hperm : List.Perm (List.insertionSort hitRel (scoredHits vecs q))
      (scoredHits vecs q) := List.perm_insertionSort _ _
  exact ((hperm.map Prod.fst).nodup_iff).mpr (List.nodup_enum_map_fst _)

/-- C2: for every index state, query and `k ≥ 1`, `search` returns at most
`k` hits, each scoring at least `similarity_threshold` (inclusive), pairwise
ordered by strictly descending score with ties by strictly ascending stored
position; whenever fewer than `k` stored entries qualify, every qualifying
scored entry is returned; and re-running the identical query on the same
state returns the identical ordered result. -/
theorem search_thresholded_topk (s : FAISSIndexState) (q : List ℚ) (k : Nat)
    (hk : 1 ≤ k) :
    (FAISSIndex_search s q k).length ≤ k ∧
    (∀ h ∈ FAISSIndex_search s q k, s.similarity_threshold ≤ h.2) ∧
    (FAISSIndex_search s q k).Pairwise
      (fun a b => b.2 < a.2 ∨ (a.2 = b.2 ∧ a.1 < b.1)) ∧
    (((scoredHits s.vectors q).filter
        (fun p => s.similarity_threshold ≤ p.2)).length < k →
      ∀ p ∈ scoredHits s.vectors q, s.similarity_threshold ≤ p.2 →
        p ∈ FAISSIndex_search s q k) ∧
    FAISSIndex_search s q k = FAISSIndex_search s q k := by
  have hsorted : (List.insertionSort hitRel (scoredHits s.vectors q)).Pairwise
      hitRel := sorted_scoredHits s.vectors q
  have hperm : List.Perm (List.insertionSort hitRel (scoredHits s.vectors q))
      (scoredHits s.vectors q) := List.perm_insertionSort _ _
  refine ⟨?_, ?_, ?_, ?_, rfl⟩
  · calc (FAISSIndex_search s q k).length
        ≤ (faissTopK s.vectors q k).length := List.length_filter_le _ _
      _ ≤ k := List.length_take_le _ _
  · intro h hm
    have := List.of_mem_filter hm
    simpa using this
  · have hne : (List.insertionSort hitRel (scoredHits s.vectors q)).Pairwise
        (fun a b => a.1 ≠ b.1) :=
      List.pairwise_map.mp (scoredHits_pos_nodup s.vectors q)
    have hstrict : (List.insertionSort hitRel (scoredHits s.vectors q)).Pairwise
        (fun a b => b.2 < a.2 ∨ (a.2 = b.2 ∧ a.1 < b.1)) := by
      refine (hsorted.and hne).imp ?_
      rintro a b ⟨hr | ⟨he, hle⟩, hab⟩
      · exact Or.inl hr
      · exact Or.inr ⟨he, lt_of_le_of_ne hle hab⟩
    have hsub : List.Sublist (FAISSIndex_search s q k)
        (List.insertionSort hitRel (scoredHits s.vectors q)) :=
      (List.filter_sublist _).trans (List.take_sublist _ _)
    exact hstrict.sublist hsub
  · intro hcount p hmem hp
    by_contra hnot
    have hpL : p ∈ List.insertionSort hitRel (scoredHits s.vectors q) :=
      hperm.mem_iff.mpr hmem
    rcases List.mem_append.mp
        ((List.take_append_drop k
          (List.insertionSort hitRel (scoredHits s.vectors q))).symm ▸ hpL)
      with htk | hdr
    · exact hnot (List.mem_filter.mpr ⟨htk, by simpa using hp⟩)
    · have hsplit : ((List.insertionSort hitRel (scoredHits s.vectors q)).take k ++
          (List.insertionSort hitRel (scoredHits s.vectors q)).drop k).Pairwise
          hitRel := by
        rw [List.take_append_drop]
        exact hsorted
      have hcross : ∀ a ∈ (List.insertionSort hitRel (scoredHits s.vectors q)).take k,
          s.similarity_threshold ≤ a.2 := by
        intro a ha
        have hr : hitRel a p := (List.pairwise_append.mp hsplit).2.2 a ha p hdr
        rcases hr with hr | ⟨he, _⟩
        · exact le_trans hp (le_of_lt hr)
        · exact he ▸ hp
      have hklen : ((List.insertionSort hitRel (scoredHits s.vectors q)).take k).length
          = k := by
        have hkl : k < (List.insertionSort hitRel (scoredHits s.vectors q)).length := by
          by_contra hge
          push_neg at hge
          rw [List.drop_eq_nil_iff.mpr hge] at hdr
          cases hdr
        simp only [List.length_take]
        omega
      have hbig : k + 1 ≤
          ((List.insertionSort hitRel (scoredHits s.vectors q)).filter
            (fun h => s.similarity_threshold ≤ h.2)).length := by
        conv_rhs =>
          rw [← List.take_append_drop k
            (List.insertionSort hitRel (scoredHits s.vectors q))]
        rw [List.filter_append, List.length_append]
        have h1 : ((List.insertionSort hitRel (scoredHits s.vectors q)).take k).filter
            (fun h => s.similarity_threshold ≤ h.2) =
              (List.insertionSort hitRel (scoredHits s.vectors q)).take k :=
          List.filter_eq_self.mpr (fun a ha => by simpa using hcross a ha)
        have h2 : 0 < (((List.insertionSort hitRel (scoredHits s.vectors q)).drop k).filter
            (fun h => s.similarity_threshold ≤ h.2)).length := by
          apply List.length_pos.mpr
          intro hnil
          have hpd : p ∈ ((List.insertionSort hitRel
              (scoredHits s.vectors q)).drop k).filter
                (fun h => s.similarity_threshold ≤ h.2) :=
            List.mem_filter.mpr ⟨hdr, by simpa using hp⟩
          rw [hnil] at hpd
          cases hpd
        rw [h1, hklen]
        omega
      have hfL : ((List.insertionSort hitRel (scoredHits s.vectors q)).filter
            (fun h => s.similarity_threshold ≤ h.2)).length =
          ((scoredHits s.vectors q).filter
            (fun h => s.similarity_threshold ≤ h.2)).length :=
        (hperm.filter _).length_eq
      rw [hfL] at hbig
      omega

/-- The index state of the C2 witness: two stored unit vectors. -/
def searchState : FAISSIndexState :=
  { freshState with vectors := [[1, 0], [0, 1]] }

/-- C2 witness: the search contract at the concrete two-vector state, query
`[1, 0]` and `k = 2`. -/
theorem search_thresholded_topk_witness :
    (1 : Nat) ≤ 2 ∧
    ((FAISSIndex_search searchState [1, 0] 2).length ≤ 2 ∧
     (∀ h ∈ FAISSIndex_search searchState [1, 0] 2,
        searchState.similarity_threshold ≤ h.2) ∧
     (FAISSIndex_search searchState [1, 0] 2).Pairwise
       (fun a b => b.2 < a.2 ∨ (a.2 = b.2 ∧ a.1 < b.1)) ∧
     (((scoredHits searchState.vectors [1, 0]).filter
         (fun p => searchState.similarity_threshold ≤ p.2)).length < 2 →
       ∀ p ∈ scoredHits searchState.vectors [1, 0],
         searchState.similarity_threshold ≤ p.2 →
           p ∈ FAISSIndex_search searchState [1, 0] 2) ∧
     FAISSIndex_search searchState [1, 0] 2 =
       FAISSIndex_search searchState [1, 0] 2) :=
  ⟨by decide, search_thresholded_topk searchState [1, 0] 2 (by decide)⟩

end TdsVirtualTA
